import Mathlib

/-!
Verification of the OnlineShop receipt splitter
(src/onlineshop/onlineshop.py) against its specification.

Modelling conventions.

* Receipt text is a list of characters.  The item pattern of line 44 of
  the source is anchored at a line start, and none of its elements can
  consume a newline, so scanning the whole text in MULTILINE mode is
  realized as matching each newline-separated line once at its start.
  The three searches of lines 46, 51 and 54 are realized as scans over
  the whole character stream, so that a whitespace class there may
  consume a newline, exactly as in the source.
* Python float arithmetic on the parsed monetary values is modelled by
  exact rational arithmetic: every number the program manipulates comes
  from a short decimal literal in the text.
* The digit and word character classes are modelled at their ASCII
  meaning.
* Python exceptions are modelled by an error sum type.  The taxonomy
  name MissingFieldError of the specification stands for the failure
  raised when a required search finds nothing (in CPython an
  AttributeError from calling group on None), and FormatError for the
  failure of converting a matched token (a ValueError from float or
  strptime).
* The interactive collaborator (ask, line 83) is modelled by an oracle
  from the prompt counter to the list of whitespace-separated
  identifiers typed; the oracle answering none models a
  KeyboardInterrupt raised at that prompt.
-/

attribute [local semireducible] Rat.add Rat.sub Rat.mul Rat.inv Rat.ofScientific

/-- ASCII decimal digit, the regex class d. -/
def pyDigit (c : Char) : Bool := decide (48 ≤ c.toNat) && decide (c.toNat ≤ 57)

/-- Numeric value of a digit character. -/
def dvalN (c : Char) : Nat := c.toNat - 48

/-- The regex whitespace class s of Python. -/
def pySpace (c : Char) : Bool :=
  c = ' ' || c = '\t' || c = '\n' || c = '\r' || c = '\x0b' || c = '\x0c'

/-- The character class of the delivery-date capture: word characters,
digits and the space (ASCII reading of w). -/
def isWordCh (c : Char) : Bool := c.isAlphanum || c = '_' || c = ' '

/-- Match a literal character sequence at the head of the input and
return the remainder. -/
def dropLit : List Char → List Char → Option (List Char)
  | [], l => some l
  | _ :: _, [] => none
  | p :: ps, c :: cs => if p = c then dropLit ps cs else none

/-- One parsed purchase, the namedtuple of line 33 of the source:
description, price for the whole line, quantity. -/
structure Purchase where
  description : String
  price : ℚ
  quantity : ℤ
deriving DecidableEq

/-- Failure taxonomy of the specification, section 7. -/
inductive ParseErr where
  | missingField (field : String)
  | formatError
deriving DecidableEq

/-- A year-less delivery date as strptime with directives A, d, B
produces it: weekday index (0 = Monday), day of month, month number. -/
structure DDate where
  weekday : Nat
  day : Nat
  month : Nat
deriving DecidableEq

/-- The order_info dictionary built at lines 67-70 of the source. -/
structure OrderInfo where
  delivery_date : DDate
  total : ℚ
deriving DecidableEq

/-- Decimal value of a two-integer-digit price token. -/
def qVal2 (a b d e : Char) : ℚ :=
  ((10 * dvalN a + dvalN b : ℕ) : ℚ) + ((10 * dvalN d + dvalN e : ℕ) : ℚ) / 100

/-- Decimal value of a one-integer-digit price token. -/
def qVal1 (a d e : Char) : ℚ :=
  ((dvalN a : ℕ) : ℚ) + ((10 * dvalN d + dvalN e : ℕ) : ℚ) / 100

/-- The price token of the item and delivery-cost patterns: one or two
digits, a dot, two digits, the leading digits greedy with backtracking.
Returns the value float gives the matched token (exact under the
rational model) and the unconsumed remainder. -/
def priceCap : List Char → Option (ℚ × List Char)
  | a :: b :: rest =>
    if pyDigit a && pyDigit b then
      match rest with
      | c :: d :: e :: r2 =>
        if c = '.' && pyDigit d && pyDigit e then some (qVal2 a b d e, r2) else none
      | _ => none
    else if pyDigit a && b = '.' then
      match rest with
      | d :: e :: r2 => if pyDigit d && pyDigit e then some (qVal1 a d e, r2) else none
      | _ => none
    else none
  | _ => none

/-- A space, the currency sign, then a price token, at the head of the
input: the tail of the item pattern after the non-greedy description. -/
def headPrice : List Char → Option (ℚ × List Char)
  | s :: p :: r => if s = ' ' && p = '£' then priceCap r else none
  | _ => none

/-- The non-greedy description scan of the item pattern: the shortest
nonempty description followed by a space, the currency sign and a price
token wins; on a price failure the description grows by one character,
as the regex engine backtracks. -/
def descLoop (acc : List Char) : List Char → Option (List Char × ℚ)
  | [] => none
  | c :: rest =>
    match headPrice rest with
    | some (v, _) => some (acc ++ [c], v)
    | none => descLoop (acc ++ [c]) rest

/-- One line against the item pattern of line 44 of the source: a
leading quantity of one or two digits (greedy with backtracking), a
space, the non-greedy description, a space, the currency sign and the
price.  A successful match carries the values the list comprehension of
line 57 converts the captured strings to. -/
def matchItemLine (l : List Char) : Option Purchase :=
  match l with
  | a :: b :: c :: rest =>
    if pyDigit a && pyDigit b && c = ' ' then
      (descLoop [] rest).map
        (fun x => ⟨String.mk x.1, x.2, ((10 * dvalN a + dvalN b : ℕ) : ℤ)⟩)
    else if pyDigit a && b = ' ' then
      (descLoop [] (c :: rest)).map (fun x => ⟨String.mk x.1, x.2, ((dvalN a : ℕ) : ℤ)⟩)
    else none
  | _ => none

/-- Split a character stream at newlines. -/
def splitLines : List Char → List (List Char)
  | [] => [[]]
  | c :: r =>
    if c = '\n' then [] :: splitLines r
    else
      match splitLines r with
      | l :: ls => (c :: l) :: ls
      | [] => [[c]]

/-- findall of the item pattern over the whole text in MULTILINE mode:
one anchored attempt per line. -/
def findPurchasesRaw (t : List Char) : List Purchase :=
  (splitLines t).filterMap matchItemLine

/-- search for the delivery-date pattern of line 46: the literal
"Delivery date", one whitespace, then a greedy nonempty capture of word
characters, digits and spaces.  Returns the capture of the leftmost
successful position. -/
def searchDeliveryDate : List Char → Option (List Char)
  | [] => none
  | c :: rest =>
    match dropLit ("Delivery date".toList) (c :: rest) with
    | some (s :: r) =>
      if pySpace s then
        let cap := r.takeWhile isWordCh
        if cap.isEmpty then searchDeliveryDate rest else some cap
      else searchDeliveryDate rest
    | _ => searchDeliveryDate rest

/-- search for the delivery-cost pattern of line 51: the literal
"Delivery", one whitespace, one arbitrary non-newline character (this
is what consumes the currency sign), then the price token.  Returns the
value float gives the captured token. -/
def searchDeliveryCost : List Char → Option ℚ
  | [] => none
  | c :: rest =>
    match dropLit ("Delivery".toList) (c :: rest) with
    | some (s :: a :: r) =>
      if pySpace s && a ≠ '\n' then
        match priceCap r with
        | some (v, _) => some v
        | none => searchDeliveryCost rest
      else searchDeliveryCost rest
    | _ => searchDeliveryCost rest

/-- The voucher number token: one or two digits, one arbitrary
non-newline character (the dot of the source pattern is unescaped), two
digits; the leading digits greedy with backtracking.  Returns the
captured characters. -/
def numTail : List Char → Option (List Char)
  | a :: b :: c :: d :: e :: _ =>
    if pyDigit a && pyDigit b && c ≠ '\n' && pyDigit d && pyDigit e then
      some [a, b, c, d, e]
    else if pyDigit a && b ≠ '\n' && pyDigit c && pyDigit d then some [a, b, c, d]
    else none
  | [a, b, c, d] =>
    if pyDigit a && b ≠ '\n' && pyDigit c && pyDigit d then some [a, b, c, d] else none
  | _ => none

/-- The voucher capture: an optional minus sign, then the number
token. -/
def voucherCapAt (l : List Char) : Option (List Char) :=
  match l with
  | c :: r => if c = '-' then (numTail r).map (fun x => '-' :: x) else numTail l
  | [] => none

/-- search for the voucher pattern of line 54: the literal
"Voucher Saving", one whitespace, one arbitrary non-newline character,
then the possibly negative number token.  Returns the captured
characters of the leftmost successful position. -/
def searchVoucher : List Char → Option (List Char)
  | [] => none
  | c :: rest =>
    match dropLit ("Voucher Saving".toList) (c :: rest) with
    | some (s :: a :: r) =>
      if pySpace s && a ≠ '\n' then
        match voucherCapAt r with
        | some cap => some cap
        | none => searchVoucher rest
      else searchVoucher rest
    | _ => searchVoucher rest

/-- Value of a digit string. -/
def digitsVal (l : List Char) : ℚ := l.foldl (fun n c => 10 * n + (dvalN c : ℚ)) 0

/-- Value of a digit string as a natural number. -/
def digitsNat (l : List Char) : Nat := l.foldl (fun n c => 10 * n + dvalN c) 0

/-- Apply an exponent part to a mantissa. -/
def expApply (m : ℚ) (neg : Bool) (es : List Char) : ℚ :=
  if neg then m / (10 : ℚ) ^ digitsNat es else m * (10 : ℚ) ^ digitsNat es

/-- Model of Python float on the unsigned token bodies the voucher
capture can take: plain digits, digits dot digits, one underscore
between digit groups, or digits followed by an exponent part.  Any
other body is a conversion failure. -/
def pyFloatPos (l : List Char) : Option ℚ :=
  let ds := l.takeWhile pyDigit
  let rest := l.dropWhile pyDigit
  match rest with
  | [] => if ds.isEmpty then none else some (digitsVal ds)
  | c :: r =>
    if c = '.' then
      let fs := r.takeWhile pyDigit
      if (r.dropWhile pyDigit).isEmpty && !(ds.isEmpty && fs.isEmpty) then
        some (digitsVal ds + digitsVal fs / (10 : ℚ) ^ fs.length)
      else none
    else if c = '_' then
      let fs := r.takeWhile pyDigit
      if !ds.isEmpty && !fs.isEmpty && (r.dropWhile pyDigit).isEmpty then
        some (digitsVal (ds ++ fs))
      else none
    else if c = 'e' || c = 'E' then
      if ds.isEmpty then none
      else
        let neg := match r with | s :: _ => s = '-' | [] => false
        let er := match r with
          | s :: r2 => if s = '-' || s = '+' then r2 else s :: r2
          | [] => []
        let es := er.takeWhile pyDigit
        if !es.isEmpty && (er.dropWhile pyDigit).isEmpty then
          some (expApply (digitsVal ds) neg es)
        else none
    else none

/-- Model of Python float on the captured token: optional sign, then an
unsigned body. -/
def pyFloat (l : List Char) : Option ℚ :=
  match l with
  | c :: r =>
    if c = '-' then (pyFloatPos r).map (fun q => -q)
    else if c = '+' then pyFloatPos r
    else pyFloatPos (c :: r)
  | [] => none

/-- Full weekday names, lowercased, in strptime order. -/
def weekdayNames : List (List Char) :=
  ["monday", "tuesday", "wednesday", "thursday", "friday", "saturday",
   "sunday"].map String.toList

/-- Full month names, lowercased, in strptime order. -/
def monthNames : List (List Char) :=
  ["january", "february", "march", "april", "may", "june", "july", "august",
   "september", "october", "november", "december"].map String.toList

/-- Match one name of a list at the head of the input; returns its index
and the remainder. -/
def takeName : List (List Char) → List Char → Option (Nat × List Char)
  | [], _ => none
  | n :: ns, l =>
    match dropLit n l with
    | some r => some (0, r)
    | none => (takeName ns l).map (fun x => (x.1 + 1, x.2))

/-- Month lengths of the default strptime year 1900. -/
def monthDays (m : Nat) : Nat :=
  [31, 28, 31, 30, 31, 30, 31, 31, 30, 31, 30, 31].getD (m - 1) 31

/-- The day-of-month token of strptime: the alternation 30 or 31, then
10 to 29, then a zero-padded 01 to 09, then a single nonzero digit. -/
def parseDay : List Char → Option (Nat × List Char)
  | [] => none
  | [a] => if pyDigit a && a ≠ '0' then some (dvalN a, []) else none
  | a :: b :: r =>
    if a = '3' && (b = '0' || b = '1') then some (30 + dvalN b, r)
    else if (a = '1' || a = '2') && pyDigit b then some (10 * dvalN a + dvalN b, r)
    else if a = '0' && pyDigit b && b ≠ '0' then some (dvalN b, r)
    else if pyDigit a && a ≠ '0' then some (dvalN a, b :: r)
    else none

/-- Model of strptime at line 49 of the source: full weekday name, day
of month and full month name, case-insensitively, consuming the whole
capture; CPython rewrites each whitespace run of the format into a
one-or-more whitespace-class match, so the separators accept any
nonempty run of whitespace.  The day is then checked against the month
lengths of the default year 1900.  strptime does not check that the
named weekday fits the date. -/
def strptimeADB (cap : List Char) : Option DDate :=
  let l := cap.map Char.toLower
  match takeName weekdayNames l with
  | none => none
  | some (w, r1) =>
    if (r1.takeWhile pySpace).isEmpty then none
    else
      match parseDay (r1.dropWhile pySpace) with
      | none => none
      | some (d, r3) =>
        if (r3.takeWhile pySpace).isEmpty then none
        else
          match takeName monthNames (r3.dropWhile pySpace) with
          | none => none
          | some (m, r5) =>
            if r5.isEmpty && d ≤ monthDays (m + 1) then some ⟨w, d, m + 1⟩
            else none

/-- The field extraction of lines 46-55 of the source, in evaluation
order: delivery-date search, its strptime conversion, delivery-cost
search (its float conversion cannot fail, the matched token being a
valid decimal literal), voucher search, its float conversion.  A failed
search is a MissingFieldError, a failed conversion a FormatError. -/
def parseFields (t : List Char) : Except ParseErr (DDate × ℚ × ℚ) :=
  match searchDeliveryDate t with
  | none => .error (.missingField "delivery date")
  | some cap =>
    match strptimeADB cap with
    | none => .error .formatError
    | some dd =>
      match searchDeliveryCost t with
      | none => .error (.missingField "delivery cost")
      | some dc =>
        match searchVoucher t with
        | none => .error (.missingField "voucher saving")
        | some vcap =>
          match pyFloat vcap with
          | none => .error .formatError
          | some vo => .ok (dd, dc, vo)

/-- parse_receipt, lines 36-72 of the source, on the text read from the
file: extract the items and the three fields, append the synthetic
delivery-cost purchase, append the voucher purchase when the voucher
value is truthy (nonzero), and derive the total as the sum of all
purchase prices plus the voucher value plus the delivery cost. -/
def parse_receipt (t : List Char) : Except ParseErr (OrderInfo × List Purchase) :=
  match parseFields t with
  | .error e => .error e
  | .ok (dd, dc, vo) =>
    let purchases := findPurchasesRaw t ++ [⟨"Delivery costs", dc, 1⟩] ++
      (if vo = 0 then [] else [⟨"Voucher savings", vo, 1⟩])
    .ok (⟨dd, (purchases.map Purchase.price).sum + vo + dc⟩, purchases)

/-- The baskets dictionary of main: flatmate identifier to the ordered
cost shares recorded for them, in insertion order. -/
abbrev Baskets := List (String × List ℚ)

/-- One basket update of lines 122-126 of the source: append the share
to the flatmate's list, creating the entry at the end if absent. -/
def record (b : Baskets) (f : String) (s : ℚ) : Baskets :=
  match b with
  | [] => [(f, [s])]
  | (g, l) :: r => if g = f then (g, l ++ [s]) :: r else (g, l) :: record r f s

/-- Record one share for every identifier the user listed, in order. -/
def recordAllPurchasers (b : Baskets) (fs : List String) (s : ℚ) : Baskets :=
  fs.foldl (fun b2 f => record b2 f s) b

/-- divide_order_bill, lines 87-96 of the source: each flatmate maps to
the sum of their recorded shares. -/
def divide_order_bill (b : Baskets) : List (String × ℚ) :=
  b.map (fun x => (x.1, x.2.sum))

/-- The two-decimal format of line 130: the nearest integer number of
hundredths, ties to even, which is how the format rounds every value
whose double is exact (all the dyadic rationals); a non-dyadic tie is
settled by the representation error of the double, outside this exact
model. -/
def fmtMoney (q : ℚ) : String :=
  let x := q * 100
  let n0 : ℤ := ⌊x⌋
  let n : ℤ :=
    if x - (n0 : ℚ) < 1 / 2 then n0
    else if 1 / 2 < x - (n0 : ℚ) then n0 + 1
    else if n0 % 2 = 0 then n0 else n0 + 1
  let a := n.natAbs
  let cents := a % 100
  (if n < 0 then "-" else "") ++ toString (a / 100) ++ "." ++
    (if cents < 10 then "0" ++ toString cents else toString cents)

/-- The report loop of lines 128-130: one line per entry of the divided
bill, in dictionary insertion order. -/
def reportLines (b : Baskets) : List String :=
  (divide_order_bill b).map (fun x => x.1 ++ " spent £" ++ fmtMoney x.2)

/-- How the assignment loop ends: it walks off the purchase list, a
KeyboardInterrupt is raised at a prompt, or the division of line 119
raises an uncaught ZeroDivisionError. -/
inductive RunExit where
  | completed
  | interrupted
  | crashed
deriving DecidableEq

/-- The assignment loop of lines 114-126: walk the purchases, skip the
zero-priced ones without prompting; a nonzero-priced purchase of
quantity zero crashes the run at the division of line 119, before any
prompt is issued; otherwise consult the oracle at the current prompt
counter, where a none answer is a KeyboardInterrupt.  Returns the
baskets accumulated so far and how the loop ended. -/
def runItems (o : Nat → Option (List String)) :
    List Purchase → Baskets → Nat → Baskets × RunExit
  | [], b, _ => (b, .completed)
  | p :: ps, b, k =>
    if p.price = 0 then runItems o ps b k
    else if p.quantity = 0 then (b, .crashed)
    else
      match o k with
      | none => (b, .interrupted)
      | some fs =>
        runItems o ps (recordAllPurchasers b fs (p.price / (p.quantity : ℚ))) (k + 1)

/-- The lines main prints from the report loop, lines 109-136: the try
block holds both the assignment loop and the report loop, and the
interrupt handler only passes, so an interrupt during assignment skips
the report loop altogether and nothing is printed; a ZeroDivisionError
is not caught at all (only KeyboardInterrupt is), so a crashed run
likewise prints no report line and the error propagates. -/
def mainOutputs (ps : List Purchase) (o : Nat → Option (List String)) : List String :=
  match runItems o ps [] 0 with
  | (b, .completed) => reportLines b
  | (_, .interrupted) => []
  | (_, .crashed) => []

/-- Association-list access in dictionary insertion order. -/
def findVal {β : Type} (f : String) : List (String × β) → Option β
  | [] => none
  | (g, x) :: r => if g = f then some x else findVal f r

/-- The share list recorded for an identifier, empty if absent. -/
def getShares (f : String) (b : Baskets) : List ℚ := (findVal f b).getD []

/-- Replay a sequence of record calls on an empty baskets dictionary. -/
def recordAll (cs : List (String × ℚ)) : Baskets :=
  cs.foldl (fun b c => record b c.1 c.2) []

/-- The shares a sequence of record calls assigns one identifier, in
call order. -/
def callShares (f : String) : List (String × ℚ) → List ℚ
  | [] => []
  | (g, s) :: r => if g = f then s :: callShares f r else callShares f r

/-- A possibly-absent share list: absent when empty. -/
def optList (l : List ℚ) : Option (List ℚ) := if l.isEmpty then none else some l

/-- How often an identifier occurs in a purchaser answer. -/
def countId (f : String) : List String → Nat
  | [] => 0
  | g :: r => (if g = f then 1 else 0) + countId f r

/-- Merge an already-present share list with later-recorded shares. -/
def mergeB (o : Option (List ℚ)) (m : List ℚ) : Option (List ℚ) :=
  match o with
  | some l => some (l ++ m)
  | none => optList m

/-- Spec-side, from the words of claim C6: the end-anchored price tail,
one or two digits, a dot, two digits, closing the line. -/
def claimedPriceEnd : List Char → Bool
  | [a, b, c, d, e] => pyDigit a && pyDigit b && c = '.' && pyDigit d && pyDigit e
  | [a, b, c, d] => pyDigit a && b = '.' && pyDigit c && pyDigit d
  | _ => false

/-- Spec-side scan: some position carries the currency sign followed by
the end-anchored price. -/
def claimedScan : List Char → Bool
  | [] => false
  | x :: r => (x = '£' && claimedPriceEnd r) || claimedScan r

/-- The item-line pattern exactly as claim C6 states it: a leading one
or two digit quantity, one whitespace, a nonempty description, the
currency sign, and a two-decimal price anchored at the end of the
line. -/
def claimedMatch (l : List Char) : Bool :=
  match l with
  | a :: b :: c :: rest =>
    (pyDigit a && pyDigit b && pySpace c &&
      (match rest with | _ :: r2 => claimedScan r2 | [] => false))
    || (pyDigit a && pySpace b && claimedScan rest)
  | _ => false

/-- Spec-side, for the amended claim C6: a price token may start at this
position (arbitrary characters may follow it). -/
def priceStart : List Char → Bool
  | a :: b :: c :: d :: e :: _ =>
    (pyDigit a && pyDigit b && c = '.' && pyDigit d && pyDigit e)
    || (pyDigit a && b = '.' && pyDigit c && pyDigit d)
  | [a, b, c, d] => pyDigit a && b = '.' && pyDigit c && pyDigit d
  | _ => false

/-- Spec-side scan of the amended pattern: some split point carries a
space, the currency sign and a price token start. -/
def poundScan : List Char → Bool
  | x :: y :: r => (x = ' ' && y = '£' && priceStart r) || poundScan (y :: r)
  | _ => false

/-- Spec-side: a nonempty description followed by a space, the currency
sign and a price token, anywhere in the line. -/
def descPrice : List Char → Bool
  | [] => false
  | _ :: rest => poundScan rest

/-- The item-line pattern as amended from the code: literal single
spaces as separators, no end anchor (text may follow the price), the
description taken exactly as captured. -/
def amendedMatch (l : List Char) : Bool :=
  match l with
  | a :: b :: c :: rest =>
    (pyDigit a && pyDigit b && c = ' ' && descPrice rest)
    || (pyDigit a && b = ' ' && descPrice (c :: rest))
  | _ => false

/-- The end-to-end demo receipt of the specification, section 8. -/
def demoText : List Char :=
  ("2 Bananas £1.00\n1 Bread £2.00\nDelivery date Tuesday 3 March\n" ++
    "Delivery £3.00\nVoucher Saving £-1.00\n").toList

/-- The four items the demo receipt parses to. -/
def demoItems : List Purchase :=
  [⟨"Bananas", 1, 2⟩, ⟨"Bread", 2, 1⟩, ⟨"Delivery costs", 3, 1⟩,
   ⟨"Voucher savings", -1, 1⟩]

/-- The metadata the demo receipt parses to: Tuesday 3 March, total 7. -/
def demoInfo : OrderInfo := ⟨⟨1, 3, 3⟩, 7⟩

/-- The allocation answers of the specification scenario: Bananas to
Alice and Bob, Bread to Alice, delivery to both, voucher to both. -/
def demoOracle : Nat → Option (List String) :=
  fun k => if k = 1 then some ["Alice"] else some ["Alice", "Bob"]

/-- Answers for the cancellation scenario: one answered prompt, then a
KeyboardInterrupt. -/
def intOracle : Nat → Option (List String) :=
  fun k => if k = 0 then some ["Alice", "Bob"] else none

/-- A receipt lacking the voucher line. -/
def missText : List Char :=
  ("2 Bananas £1.00\nDelivery date Tuesday 3 March\nDelivery £3.00\n").toList

/-- A receipt whose voucher line is missing and whose found
delivery-date capture cannot be converted. -/
def cxText : List Char := ("Delivery date zzz\nDelivery £3.00\n").toList

/-- A receipt with an explicit zero voucher saving. -/
def zeroVoucherText : List Char :=
  ("1 Bread £2.00\nDelivery date Tuesday 3 March\nDelivery £3.00\n" ++
    "Voucher Saving £0.00\n").toList

/-- The items of the zero-voucher receipt: no voucher item. -/
def zeroVoucherItems : List Purchase :=
  [⟨"Bread", 2, 1⟩, ⟨"Delivery costs", 3, 1⟩]

/-- A receipt with a zero quantity on an item line. -/
def qtyZeroText : List Char :=
  ("0 Phantom £1.00\nDelivery date Tuesday 3 March\nDelivery £3.00\n" ++
    "Voucher Saving £-1.00\n").toList

/-- The items of the zero-quantity receipt. -/
def qtyZeroItems : List Purchase :=
  [⟨"Phantom", 1, 0⟩, ⟨"Delivery costs", 3, 1⟩, ⟨"Voucher savings", -1, 1⟩]

/-- A purchase priced zero, for exercising the skip branch. -/
def zDemo : Purchase := ⟨"Freebie", 0, 1⟩

/-- A record-call sequence with a repeated identifier. -/
def permCalls : List (String × ℚ) := [("Alice", 1), ("Bob", 2), ("Alice", 3)]

theorem parse_err {t : List Char} {e : ParseErr} (h : parseFields t = .error e) :
    parse_receipt t = .error e := by
  unfold parse_receipt
  rw [h]

theorem parse_ok_shape {t : List Char} {info : OrderInfo} {ps : List Purchase}
    (h : parse_receipt t = .ok (info, ps)) :
    ∃ dd dc vo, parseFields t = .ok (dd, dc, vo) ∧
      ps = findPurchasesRaw t ++ [⟨"Delivery costs", dc, 1⟩] ++
        (if vo = 0 then [] else [⟨"Voucher savings", vo, 1⟩]) ∧
      info = ⟨dd, (ps.map Purchase.price).sum + vo + dc⟩ := by
  unfold parse_receipt at h
  cases hf : parseFields t with
  | error e => rw [hf] at h; exact absurd h (by simp)
  | ok trip =>
    obtain ⟨dd, dc, vo⟩ := trip
    rw [hf] at h
    simp only [Except.ok.injEq, Prod.mk.injEq] at h
    obtain ⟨h1, h2⟩ := h
    exact ⟨dd, dc, vo, rfl, h2.symm, by rw [← h1, ← h2]⟩

/-- C1: the total returned by parse_receipt is the sum of unitPriceTotal
over the full item sequence, synthetic items included, plus the parsed
voucher saving plus the parsed delivery cost; on the demo text of the
specification the four expected items come back and the total is 7. -/
theorem C1_reconcile_total :
    (∀ t info ps, parse_receipt t = .ok (info, ps) →
      ∃ dd dc vo, parseFields t = .ok (dd, dc, vo) ∧
        info.total = (ps.map Purchase.price).sum + vo + dc)
    ∧ parse_receipt demoText = .ok (demoInfo, demoItems) ∧ demoInfo.total = 7 := by
  refine ⟨?_, by rfl, by rfl⟩
  intro t info ps h
  obtain ⟨dd, dc, vo, hf, _, hinfo⟩ := parse_ok_shape h
  exact ⟨dd, dc, vo, hf, by rw [hinfo]⟩

theorem C1_reconcile_total_w :
    ∃ dd dc vo, parseFields demoText = .ok (dd, dc, vo) ∧
      demoInfo.total = (demoItems.map Purchase.price).sum + vo + dc :=
  C1_reconcile_total.1 demoText demoInfo demoItems (by rfl)

/-- C8: a successful parse always appends the synthetic delivery-cost
item, and appends the synthetic voucher item exactly when the parsed
voucher value is nonzero. -/
theorem C8_synthetic_items : ∀ t info ps, parse_receipt t = .ok (info, ps) →
    ∃ dd dc vo, parseFields t = .ok (dd, dc, vo) ∧
      ps = findPurchasesRaw t ++ [⟨"Delivery costs", dc, 1⟩] ++
        (if vo = 0 then [] else [⟨"Voucher savings", vo, 1⟩]) := by
  intro t info ps h
  obtain ⟨dd, dc, vo, hf, hps, _⟩ := parse_ok_shape h
  exact ⟨dd, dc, vo, hf, hps⟩

theorem C8_synthetic_items_w :
    ∃ dd dc vo, parseFields zeroVoucherText = .ok (dd, dc, vo) ∧
      zeroVoucherItems = findPurchasesRaw zeroVoucherText ++
        [⟨"Delivery costs", dc, 1⟩] ++
        (if vo = 0 then [] else [⟨"Voucher savings", vo, 1⟩]) :=
  C8_synthetic_items zeroVoucherText ⟨⟨1, 3, 3⟩, 8⟩ zeroVoucherItems (by rfl)

/-- C3 counterexample: in this text the voucher pattern is not found,
yet the parse fails with FormatError, not MissingFieldError, because
the delivery-date capture is found but unconvertible and that failure
comes first in evaluation order. -/
theorem C3_missing_cx :
    searchVoucher cxText = none ∧ parse_receipt cxText = .error .formatError ∧
      ∀ f, parse_receipt cxText ≠ .error (.missingField f) := by
  refine ⟨by rfl, by rfl, ?_⟩
  intro f h
  rw [show parse_receipt cxText = .error .formatError from rfl] at h
  simp at h

/-- C3 as amended: whenever one of the three required patterns is not
found the parse fails and no items are returned; the error is
MissingFieldError for the first failing field in the fixed evaluation
order (delivery date, its conversion, delivery cost, voucher), so a
missing pattern surfaces as MissingFieldError provided every field
examined before it converted. -/
theorem C3_missing_amended : ∀ t : List Char,
    ((searchDeliveryDate t = none ∨ searchDeliveryCost t = none ∨
        searchVoucher t = none) → ∃ e, parse_receipt t = .error e)
    ∧ (searchDeliveryDate t = none →
        parse_receipt t = .error (.missingField "delivery date"))
    ∧ (∀ cap dd, searchDeliveryDate t = some cap → strptimeADB cap = some dd →
        searchDeliveryCost t = none →
        parse_receipt t = .error (.missingField "delivery cost"))
    ∧ (∀ cap dd dc, searchDeliveryDate t = some cap → strptimeADB cap = some dd →
        searchDeliveryCost t = some dc → searchVoucher t = none →
        parse_receipt t = .error (.missingField "voucher saving")) := by
  intro t
  have hdd : searchDeliveryDate t = none →
      parse_receipt t = .error (.missingField "delivery date") := by
    intro h
    exact parse_err (by simp [parseFields, h])
  have hdc : ∀ cap dd, searchDeliveryDate t = some cap → strptimeADB cap = some dd →
      searchDeliveryCost t = none →
      parse_receipt t = .error (.missingField "delivery cost") := by
    intro cap dd h1 h2 h3
    exact parse_err (by simp [parseFields, h1, h2, h3])
  have hvo : ∀ cap dd dc, searchDeliveryDate t = some cap →
      strptimeADB cap = some dd → searchDeliveryCost t = some dc →
      searchVoucher t = none →
      parse_receipt t = .error (.missingField "voucher saving") := by
    intro cap dd dc h1 h2 h3 h4
    exact parse_err (by simp [parseFields, h1, h2, h3, h4])
  refine ⟨?_, hdd, hdc, hvo⟩
  intro hmiss
  cases h1 : searchDeliveryDate t with
  | none => exact ⟨_, hdd h1⟩
  | some cap =>
    cases h2 : strptimeADB cap with
    | none => exact ⟨.formatError, parse_err (by simp [parseFields, h1, h2])⟩
    | some dd =>
      cases h3 : searchDeliveryCost t with
      | none => exact ⟨_, hdc cap dd h1 h2 h3⟩
      | some dc =>
        cases h4 : searchVoucher t with
        | none => exact ⟨_, hvo cap dd dc h1 h2 h3 h4⟩
        | some vcap =>
          rcases hmiss with hm | hm | hm
          · rw [h1] at hm; exact absurd hm (by simp)
          · rw [h3] at hm; exact absurd hm (by simp)
          · rw [h4] at hm; exact absurd hm (by simp)

theorem C3_missing_amended_w :
    parse_receipt missText = .error (.missingField "voucher saving") :=
  (C3_missing_amended missText).2.2.2 ("Tuesday 3 March".toList) ⟨1, 3, 3⟩ 3
    (by rfl) (by rfl) (by rfl) (by rfl)

theorem dvalN_le9 {c : Char} (h : pyDigit c = true) : dvalN c ≤ 9 := by
  simp only [pyDigit, Bool.and_eq_true, decide_eq_true_eq] at h
  unfold dvalN
  omega

theorem matchItem_qty {l : List Char} {p : Purchase}
    (h : matchItemLine l = some p) : 0 ≤ p.quantity ∧ p.quantity ≤ 99 := by
  rcases l with _ | ⟨a, _ | ⟨b, _ | ⟨c, rest⟩⟩⟩
  · exact absurd h (by simp [matchItemLine])
  · exact absurd h (by simp [matchItemLine])
  · exact absurd h (by simp [matchItemLine])
  · simp only [matchItemLine] at h
    split at h
    case isTrue h1 =>
      cases hd : descLoop [] rest with
      | none => rw [hd] at h; exact absurd h (by simp)
      | some x =>
        rw [hd] at h
        simp only [Option.map_some'] at h
        obtain ⟨⟨ha, hb⟩, _⟩ : (pyDigit a = true ∧ pyDigit b = true) ∧ c = ' ' := by
          simpa [Bool.and_eq_true, decide_eq_true_eq] using h1
        have h9a := dvalN_le9 ha
        have h9b := dvalN_le9 hb
        have hp := Option.some.inj h
        subst hp
        refine ⟨?_, ?_⟩ <;> dsimp only <;> omega
    case isFalse h1 =>
      split at h
      case isTrue h2 =>
        cases hd : descLoop [] (c :: rest) with
        | none => rw [hd] at h; exact absurd h (by simp)
        | some x =>
          rw [hd] at h
          simp only [Option.map_some'] at h
          obtain ⟨ha, _⟩ : pyDigit a = true ∧ b = ' ' := by
            simpa [Bool.and_eq_true, decide_eq_true_eq] using h2
          have h9a := dvalN_le9 ha
          have hp := Option.some.inj h
          subst hp
          refine ⟨?_, ?_⟩ <;> dsimp only <;> omega
      case isFalse h2 => exact absurd h (by simp)

/-- C5 counterexample: an item line with a leading zero quantity parses
successfully, and the returned sequence contains a LineItem of quantity
zero, violating the claimed invariant. -/
theorem C5_qty_cx :
    parse_receipt qtyZeroText = .ok (⟨⟨1, 3, 3⟩, 5⟩, qtyZeroItems)
    ∧ ¬ ∀ p ∈ qtyZeroItems, 1 ≤ p.quantity := by
  exact ⟨by rfl, by decide⟩

/-- C5 as amended: every LineItem returned by parse has a quantity
between 0 and 99: the synthetic items carry quantity 1, and a parsed
line carries the value of its one or two leading digits, which may be
zero. -/
theorem C5_qty_amended : ∀ t info ps p, parse_receipt t = .ok (info, ps) →
    p ∈ ps → 0 ≤ p.quantity ∧ p.quantity ≤ 99 := by
  intro t info ps p h hmem
  obtain ⟨dd, dc, vo, _, hps, _⟩ := parse_ok_shape h
  subst hps
  rcases List.mem_append.1 hmem with h1 | h2
  · rcases List.mem_append.1 h1 with h3 | h4
    · obtain ⟨l, _, hml⟩ := List.mem_filterMap.1 h3
      exact matchItem_qty hml
    · have hp : p = ⟨"Delivery costs", dc, 1⟩ := by simpa using h4
      rw [hp]
      refine ⟨?_, ?_⟩ <;> dsimp only <;> omega
  · split at h2
    · exact absurd h2 (by simp)
    · have hp : p = ⟨"Voucher savings", vo, 1⟩ := by simpa using h2
      rw [hp]
      refine ⟨?_, ?_⟩ <;> dsimp only <;> omega

theorem C5_qty_amended_w :
    0 ≤ (Purchase.mk "Phantom" 1 0).quantity ∧
      (Purchase.mk "Phantom" 1 0).quantity ≤ 99 :=
  C5_qty_amended qtyZeroText ⟨⟨1, 3, 3⟩, 5⟩ qtyZeroItems ⟨"Phantom", 1, 0⟩
    (by rfl) (by decide)

theorem runItems_interrupted : ∀ (o : Nat → Option (List String))
    (ps : List Purchase) (b : Baskets) (k : Nat),
    (runItems o ps b k).2 = RunExit.interrupted → ∃ j, o j = none := by
  intro o ps
  induction ps with
  | nil => intro b k h; simp [runItems] at h
  | cons p ps ih =>
    intro b k h
    simp only [runItems] at h
    by_cases hp : p.price = 0
    · rw [if_pos hp] at h
      exact ih _ _ h
    · rw [if_neg hp] at h
      by_cases hq : p.quantity = 0
      · rw [if_pos hq] at h
        simp at h
      · rw [if_neg hq] at h
        cases ho : o k with
        | none => exact ⟨k, ho⟩
        | some fs => rw [ho] at h; exact ih _ _ h

/-- C2 counterexample: an interrupt after the first of the prompts
leaves shares recorded for Alice and Bob, and the claim would have the
run report the bill derived from them, but the report loop sits inside
the same try block as the assignment loop, so the run prints nothing at
all. -/
theorem C2_cancel_cx :
    mainOutputs demoItems intOracle = []
    ∧ (runItems intOracle demoItems [] 0).2 = RunExit.interrupted
    ∧ (runItems intOracle demoItems [] 0).1 =
        [("Alice", [1/2]), ("Bob", [1/2])]
    ∧ reportLines [("Alice", [1/2]), ("Bob", [1/2])] =
        ["Alice spent £0.50", "Bob spent £0.50"] := by
  exact ⟨by decide, by decide, by decide, by decide⟩

/-- C2 as amended: when a cancellation interrupt is raised during the
assignment sequence, no error is surfaced (the interrupt is caught and
ignored), but the finalize-and-report step is skipped: the run prints
no FinalBill at all, so the shares recorded before the interrupt are
discarded rather than reported. -/
theorem C2_cancel_amended :
    ∀ ps o, (runItems o ps [] 0).2 = RunExit.interrupted →
      mainOutputs ps o = [] ∧ ∃ j, o j = none := by
  intro ps o h
  refine ⟨?_, runItems_interrupted o ps [] 0 h⟩
  unfold mainOutputs
  rcases hrun : runItems o ps [] 0 with ⟨b, e⟩
  rw [hrun] at h
  dsimp only at h
  subst h
  rfl

theorem C2_cancel_amended_w :
    mainOutputs demoItems intOracle = [] ∧ ∃ j, intOracle j = none :=
  C2_cancel_amended demoItems intOracle (by decide)

/-- C7: a zero-priced LineItem is skipped by the assignment loop: no
prompt is consumed for it and no share derived from it is recorded, so
running the loop with the item removed gives the same baskets, the same
prompt consumption and the same interruption status. -/
theorem C7_zero_price_skip : ∀ (o : Nat → Option (List String))
    (xs : List Purchase) (z : Purchase) (ys : List Purchase)
    (b : Baskets) (k : Nat), z.price = 0 →
    runItems o (xs ++ z :: ys) b k = runItems o (xs ++ ys) b k := by
  intro o xs
  induction xs with
  | nil =>
    intro z ys b k hz
    simp [runItems, hz]
  | cons x xs ih =>
    intro z ys b k hz
    simp only [List.cons_append, runItems]
    by_cases hx : x.price = 0
    · rw [if_pos hx, if_pos hx]
      exact ih z ys b k hz
    · rw [if_neg hx, if_neg hx]
      by_cases hq : x.quantity = 0
      · rw [if_pos hq, if_pos hq]
      · rw [if_neg hq, if_neg hq]
        cases o k with
        | none => rfl
        | some fs => exact ih z ys _ _ hz

theorem C7_zero_price_skip_w :
    runItems demoOracle ([] ++ zDemo :: [⟨"Bread", 2, 1⟩]) [] 0 =
      runItems demoOracle ([] ++ [⟨"Bread", 2, 1⟩]) [] 0 :=
  C7_zero_price_skip demoOracle [] zDemo [⟨"Bread", 2, 1⟩] [] 0 (by decide)

theorem findVal_record (b : Baskets) (f g : String) (s : ℚ) :
    findVal f (record b g s) =
      if g = f then some ((findVal f b).getD [] ++ [s]) else findVal f b := by
  induction b with
  | nil => by_cases hgf : g = f <;> simp [record, findVal, hgf]
  | cons hd tl ih =>
    obtain ⟨g2, l⟩ := hd
    by_cases h1 : g2 = g <;> by_cases h2 : g2 = f <;> by_cases h3 : g = f <;>
      simp_all [record, findVal]

theorem findVal_foldl_record : ∀ (cs : List (String × ℚ)) (b : Baskets)
    (f : String),
    findVal f (cs.foldl (fun b2 c => record b2 c.1 c.2) b) =
      mergeB (findVal f b) (callShares f cs) := by
  intro cs
  induction cs with
  | nil =>
    intro b f
    simp only [List.foldl_nil, callShares]
    cases findVal f b <;> simp [mergeB, optList]
  | cons c cs ih =>
    intro b f
    obtain ⟨g, s⟩ := c
    simp only [List.foldl_cons]
    rw [ih, findVal_record]
    by_cases hgf : g = f
    · rw [if_pos hgf]
      simp only [callShares, if_pos hgf]
      cases hb : findVal f b <;> simp [mergeB, optList]
    · rw [if_neg hgf]
      simp [callShares, hgf]

theorem callShares_perm (f : String) {c1 c2 : List (String × ℚ)}
    (h : c1.Perm c2) : (callShares f c1).Perm (callShares f c2) := by
  induction h with
  | nil => exact List.Perm.refl _
  | cons x h ih =>
    obtain ⟨g, s⟩ := x
    by_cases hg : g = f
    · simp only [callShares, if_pos hg]
      exact ih.cons s
    · simp only [callShares, if_neg hg]
      exact ih
  | swap x y l =>
    obtain ⟨g1, s1⟩ := x
    obtain ⟨g2, s2⟩ := y
    by_cases h1 : g1 = f
    · by_cases h2 : g2 = f
      · simp only [callShares, if_pos h1, if_pos h2]
        apply List.Perm.swap
      · simp only [callShares, if_pos h1, if_neg h2]
        exact List.Perm.refl _
    · by_cases h2 : g2 = f
      · simp only [callShares, if_pos h2, if_neg h1]
        exact List.Perm.refl _
      · simp only [callShares, if_neg h1, if_neg h2]
        exact List.Perm.refl _
  | trans h1 h2 ih1 ih2 => exact ih1.trans ih2

theorem findVal_divide (b : Baskets) (f : String) :
    findVal f (divide_order_bill b) = (findVal f b).map List.sum := by
  induction b with
  | nil => rfl
  | cons hd tl ih =>
    obtain ⟨g, l⟩ := hd
    by_cases h : g = f
    · simp [divide_order_bill, findVal, h]
    · simp only [divide_order_bill, List.map_cons, findVal, if_neg h]
      exact ih

/-- C9: divide_order_bill maps each identifier to the sum of its
recorded shares, sends the empty baskets to the empty bill, and the
bill read as a mapping is invariant under reordering the record-call
sequence. -/
theorem C9_finalize_perm :
    (∀ b f, findVal f (divide_order_bill b) = (findVal f b).map List.sum)
    ∧ divide_order_bill [] = []
    ∧ ∀ c1 c2 : List (String × ℚ), c1.Perm c2 → ∀ f,
        findVal f (divide_order_bill (recordAll c1)) =
          findVal f (divide_order_bill (recordAll c2)) := by
  refine ⟨fun b f => findVal_divide b f, rfl, ?_⟩
  intro c1 c2 hp f
  rw [findVal_divide, findVal_divide]
  unfold recordAll
  rw [findVal_foldl_record, findVal_foldl_record]
  have hcp := callShares_perm f hp
  have hsum := hcp.sum_eq
  simp only [findVal, mergeB]
  cases h1 : callShares f c1 with
  | nil =>
    rw [h1] at hcp
    have h2 : callShares f c2 = [] := hcp.symm.eq_nil
    rw [h2]
  | cons x xs =>
    rw [h1] at hcp hsum
    cases h2 : callShares f c2 with
    | nil =>
      rw [h2] at hcp
      exact absurd hcp.eq_nil (by simp)
    | cons y ys =>
      rw [h2] at hsum
      simp [optList, hsum]

theorem C9_finalize_perm_w :
    findVal "Alice" (divide_order_bill (recordAll permCalls)) =
      findVal "Alice" (divide_order_bill (recordAll permCalls.reverse)) :=
  C9_finalize_perm.2.2 permCalls permCalls.reverse
    (List.reverse_perm permCalls).symm "Alice"

theorem getShares_record (b : Baskets) (f g : String) (s : ℚ) :
    getShares f (record b g s) =
      if g = f then getShares f b ++ [s] else getShares f b := by
  unfold getShares
  rw [findVal_record]
  by_cases h : g = f <;> simp [h]

theorem getShares_recordAllPurchasers : ∀ (fs : List String) (b : Baskets)
    (f : String) (s : ℚ),
    getShares f (recordAllPurchasers b fs s) =
      getShares f b ++ List.replicate (countId f fs) s := by
  intro fs
  induction fs with
  | nil => intro b f s; simp [recordAllPurchasers, countId]
  | cons g gs ih =>
    intro b f s
    simp only [recordAllPurchasers, List.foldl_cons] at ih ⊢
    rw [ih, getShares_record]
    by_cases h : g = f
    · simp only [countId, h, if_true, ite_true]
      rw [Nat.add_comm 1 (countId f gs)]
      simp [List.replicate_succ, List.append_assoc]
    · simp [countId, h]

/-- C4: for a cost-bearing LineItem, every identifier the user lists
receives one full unit share price over quantity per mention, not a
fraction divided among the listed purchasers; and the allocation demo
of the specification ends with Alice owing 4.50 and Bob owing 2.50. -/
theorem C4_full_unit_share :
    (∀ (b : Baskets) (p : Purchase) (fs : List String) (f : String),
      p.price ≠ 0 → f ∈ fs →
      getShares f (recordAllPurchasers b fs (p.price / (p.quantity : ℚ))) =
        getShares f b ++
          List.replicate (countId f fs) (p.price / (p.quantity : ℚ)))
    ∧ (runItems demoOracle demoItems [] 0).2 = RunExit.completed
    ∧ divide_order_bill (runItems demoOracle demoItems [] 0).1 =
        [("Alice", 9/2), ("Bob", 5/2)] := by
  refine ⟨fun b p fs f _ _ => getShares_recordAllPurchasers fs b f _, ?_, ?_⟩
  · decide
  · decide

theorem C4_full_unit_share_w :
    getShares "Alice" (recordAllPurchasers [] ["Alice", "Bob"]
        ((Purchase.mk "Bananas" 1 2).price /
          ((Purchase.mk "Bananas" 1 2).quantity : ℚ))) =
      getShares "Alice" [] ++
        List.replicate (countId "Alice" ["Alice", "Bob"])
          ((Purchase.mk "Bananas" 1 2).price /
            ((Purchase.mk "Bananas" 1 2).quantity : ℚ)) :=
  C4_full_unit_share.1 [] ⟨"Bananas", 1, 2⟩ ["Alice", "Bob"] "Alice"
    (by decide) (by decide)

/-- C10 counterexample: an identifier whose recorded shares sum to zero
still produces a report line, reading spent 0.00; the report loop has
no nonzero filter. -/
theorem C10_report_cx :
    List.sum [(1 : ℚ), -1] = 0
    ∧ reportLines [("Bob", [(1 : ℚ), -1])] = ["Bob spent £0.00"] := by
  exact ⟨by decide, by decide⟩

/-- C10 as amended: exactly the identifiers present in the baskets,
that is those with at least one recorded share, produce an output line
identifier spent amount-to-two-decimals; an identifier whose shares sum
to zero still produces a line, showing 0.00. -/
theorem C10_report_amended :
    (∀ (b : Baskets) (f : String) (ss : List ℚ), (f, ss) ∈ b →
      (f ++ " spent £" ++ fmtMoney ss.sum) ∈ reportLines b)
    ∧ ∀ (b : Baskets) (line : String), line ∈ reportLines b →
      ∃ f ss, (f, ss) ∈ b ∧ line = f ++ " spent £" ++ fmtMoney ss.sum := by
  constructor
  · intro b f ss h
    unfold reportLines divide_order_bill
    rw [List.map_map]
    exact List.mem_map.2 ⟨(f, ss), h, rfl⟩
  · intro b line h
    unfold reportLines divide_order_bill at h
    rw [List.map_map] at h
    obtain ⟨⟨f, ss⟩, hm, he⟩ := List.mem_map.1 h
    exact ⟨f, ss, hm, he.symm⟩

theorem C10_report_amended_w :
    ("Bob" ++ " spent £" ++ fmtMoney (List.sum [(1 : ℚ), -1])) ∈
      reportLines [("Bob", [(1 : ℚ), -1])] :=
  C10_report_amended.1 [("Bob", [(1 : ℚ), -1])] "Bob" [(1 : ℚ), -1]
    (by simp)

theorem priceCap_isSome : ∀ l : List Char, (priceCap l).isSome = priceStart l := by
  intro l
  have hdot : pyDigit '.' = false := rfl
  rcases l with _ | ⟨a, _ | ⟨b, _ | ⟨c, _ | ⟨d, _ | ⟨e, r⟩⟩⟩⟩⟩
  · rfl
  · rfl
  · simp only [priceCap, priceStart]
    split
    · rfl
    · split <;> rfl
  · simp only [priceCap, priceStart]
    split
    · rfl
    · split <;> rfl
  · simp only [priceCap, priceStart]
    by_cases hb : b = '.' <;>
      by_cases hA : pyDigit a = true <;> by_cases hB : pyDigit b = true <;>
        by_cases hC : pyDigit c = true <;> by_cases hD : pyDigit d = true <;>
          simp_all
  · simp only [priceCap, priceStart]
    by_cases hb : b = '.' <;> by_cases hc : c = '.' <;>
      by_cases hA : pyDigit a = true <;> by_cases hB : pyDigit b = true <;>
        by_cases hC : pyDigit c = true <;> by_cases hD : pyDigit d = true <;>
          by_cases hE : pyDigit e = true <;>
            simp_all

theorem descLoop_isSome : ∀ (m acc : List Char),
    (descLoop acc m).isSome = descPrice m := by
  intro m
  induction m with
  | nil => intro acc; rfl
  | cons c rest ih =>
    intro acc
    simp only [descLoop]
    cases hh : headPrice rest with
    | some v =>
      obtain ⟨v1, v2⟩ := v
      dsimp only
      rcases rest with _ | ⟨s, _ | ⟨p, r⟩⟩
      · exact absurd hh (by simp [headPrice])
      · exact absurd hh (by simp [headPrice])
      · by_cases hs : s = ' '
        · by_cases hp : p = '£'
          · subst hs; subst hp
            rw [show headPrice (' ' :: '£' :: r) = priceCap r from rfl] at hh
            have hps : priceStart r = true := by
              rw [← priceCap_isSome, hh]; rfl
            simp [descPrice, poundScan, hps]
          · exact absurd hh (by simp [headPrice, hp])
        · exact absurd hh (by simp [headPrice, hs])
    | none =>
      dsimp only
      rw [ih]
      rcases rest with _ | ⟨s, _ | ⟨p, r⟩⟩
      · rfl
      · rfl
      · by_cases hs : s = ' '
        · by_cases hp : p = '£'
          · subst hs; subst hp
            rw [show headPrice (' ' :: '£' :: r) = priceCap r from rfl] at hh
            have hps : priceStart r = false := by
              rw [← priceCap_isSome, hh]; rfl
            simp [descPrice, poundScan, hps]
          · simp [descPrice, poundScan, hp]
        · simp [descPrice, poundScan, hs]

/-- C6 counterexample: the line 2 Bananas pound 1.00 x yields a
LineItem although the claimed end-anchored pattern rejects it (the
source pattern has no end anchor); the line with a tab after the
quantity matches the claimed whitespace-class pattern but yields no
LineItem (the source pattern wants a literal space); and a double space
before the currency sign yields a description with a trailing space,
not a trimmed one. -/
theorem C6_pattern_cx :
    matchItemLine ("2 Bananas £1.00 x".toList) = some ⟨"Bananas", 1, 2⟩
    ∧ claimedMatch ("2 Bananas £1.00 x".toList) = false
    ∧ matchItemLine ("2\tBananas £1.00".toList) = none
    ∧ claimedMatch ("2\tBananas £1.00".toList) = true
    ∧ matchItemLine ("2 B  £1.00".toList) = some ⟨"B ", 1, 2⟩ :=
  ⟨rfl, rfl, rfl, rfl, rfl⟩

/-- C6 as amended: line-item extraction yields one LineItem for exactly
those lines whose head matches the pattern with a leading one or two
digit quantity, a literal single space, a nonempty non-greedy
description, a literal space and the currency sign, and a two-decimal
price, with no end anchor, so arbitrary text may follow the price on
the line; the description is taken exactly as captured. -/
theorem C6_pattern_amended : ∀ l : List Char,
    (matchItemLine l).isSome = amendedMatch l := by
  intro l
  have hsp : pyDigit ' ' = false := rfl
  rcases l with _ | ⟨a, _ | ⟨b, _ | ⟨c, rest⟩⟩⟩
  · rfl
  · rfl
  · rfl
  · simp only [matchItemLine, amendedMatch]
    by_cases hA : pyDigit a = true <;> by_cases hB : pyDigit b = true <;>
      by_cases hc : c = ' ' <;> by_cases hb : b = ' ' <;>
        simp_all [Option.isSome_map', descLoop_isSome]
